import Mathlib

/-!
Verification of the business-listing extraction pipeline
(`src/app/lib/enhanced-vision.ts`, `src/app/lib/places.ts`,
`src/app/components/BusinessListingGenerator.tsx`).

The TypeScript source is embedded shallowly: JavaScript strings become
Lean `String` (all inputs of interest are ASCII, where JS UTF-16 code
units, Lean chars and their case conversion agree), JS arrays become
`List`, JS numbers in the scorer become `Int` (every score contribution
in the source is integral) and the confidence arithmetic becomes `ℚ`.
JS regular expressions are embedded by a small backtracking matcher
whose priority order mirrors the JS engine (greedy quantifiers over
character classes, ordered alternation, leftmost match, `lastIndex`
scanning for the `g` flag).  `Array.prototype.sort` is stable
(ECMAScript 2019), and a stable sort is uniquely determined by the
comparator, so it is embedded as a stable insertion sort.
-/

namespace ListingSpec

/-! ### Basic string helpers (JS semantics, structural recursion) -/

/-- JS whitespace characters matched by `\s` (ASCII portion). -/
def isJsWs (c : Char) : Bool :=
  c == ' ' || c == '\t' || c == '\n' || c == '\r' || c == '\x0b' || c == '\x0c'

/-- `small` occurs as a contiguous segment of `big`
(JS `String.prototype.includes`). -/
def segm (small : List Char) : List Char → Bool
  | [] => small.isEmpty
  | c :: rest => small.isPrefixOf (c :: rest) || segm small rest

/-- JS `big.includes(small)`. -/
def jsIncludes (big small : String) : Bool := segm small.data big.data

/-- JS `String.prototype.toLowerCase` (ASCII). -/
def jsToLower (s : String) : String := String.mk (s.data.map Char.toLower)

/-- JS `String.prototype.trim`. -/
def jsTrim (s : String) : String :=
  String.mk (((s.data.dropWhile isJsWs).reverse.dropWhile isJsWs).reverse)

/-- Split a character list at every occurrence of `sep`
(JS `String.prototype.split` with a one-character separator). -/
def splitOnChar (sep : Char) : List Char → List (List Char)
  | [] => [[]]
  | c :: rest =>
    let r := splitOnChar sep rest
    if c == sep then [] :: r
    else
      match r with
      | w :: ws => (c :: w) :: ws
      | [] => [[c]]

/-- JS `s.split(sep)` for a one-character separator. -/
def jsSplit (s : String) (sep : Char) : List String :=
  (splitOnChar sep s.data).map String.mk

/-- JS `arr.join(' ')`. -/
def joinSpace : List (List Char) → List Char
  | [] => []
  | [w] => w
  | w :: ws => w ++ ' ' :: joinSpace ws

/-- JS `lines.slice(i, j).join(' ')`. -/
def joinSlice (lines : List String) (i j : Nat) : String :=
  String.mk (joinSpace (((lines.drop i).take (j - i)).map String.data))

/-- Number of non-empty tokens of `cs` when split on whitespace runs
(JS `s.split(/\s+/).filter(w => w.length > 0).length`). -/
def tokenCountAux : Bool → List Char → Nat
  | _, [] => 0
  | inTok, c :: rest =>
    if isJsWs c then tokenCountAux false rest
    else (if inTok then 0 else 1) + tokenCountAux true rest

def wordTokenCount (s : String) : Nat := tokenCountAux false s.data

/-- ASCII character classes used by the source regexes. -/
def isUpperAZ (c : Char) : Bool := 'A' ≤ c && c ≤ 'Z'

def isLowerAZ (c : Char) : Bool := 'a' ≤ c && c ≤ 'z'

def isLetterAZ (c : Char) : Bool := isUpperAZ c || isLowerAZ c

def isDigit09 (c : Char) : Bool := '0' ≤ c && c ≤ '9'

def isAlnum (c : Char) : Bool := isLetterAZ c || isDigit09 c

/-! ### A small backtracking regex engine

Each constructor mirrors a construct that actually occurs in the four
source regexes: character classes, literals (case-sensitive and
case-insensitive for the `i` flag), greedy counted repetition of a
character class, greedy `?`, ordered alternation and concatenation.
`reMatches` returns every end position of a match starting at `pos`,
in exactly the JS engine's backtracking priority order, so the head of
the list is the end position the JS engine reports. -/

inductive RE where
  | cls (p : Char → Bool)
  | lit (s : List Char)
  | litCI (s : List Char)
  | rep (p : Char → Bool) (lo : Nat) (hi : Option Nat)
  | opt (r : RE)
  | alt (a b : RE)
  | seq (a b : RE)

/-- Length of the maximal run of characters satisfying `p` from `pos`. -/
def maxRun (p : Char → Bool) (cs : List Char) (pos : Nat) : Nat :=
  ((cs.drop pos).takeWhile p).length

/-- `[top, top-1, ..., lo]` (empty when `top < lo`): greedy priority
order for a counted repetition. -/
def downFrom (top lo : Nat) : List Nat :=
  (List.range' lo (top + 1 - lo)).reverse

def reMatches : RE → List Char → Nat → List Nat
  | .cls p, cs, pos =>
    match cs[pos]? with
    | some c => if p c then [pos + 1] else []
    | none => []
  | .lit s, cs, pos =>
    if s.isPrefixOf (cs.drop pos) then [pos + s.length] else []
  | .litCI s, cs, pos =>
    if ((cs.drop pos).take s.length).map Char.toLower == s.map Char.toLower
    then [pos + s.length] else []
  | .rep p lo hi, cs, pos =>
    let run := maxRun p cs pos
    (downFrom (min run (hi.getD run)) lo).map (pos + ·)
  | .opt r, cs, pos => reMatches r cs pos ++ [pos]
  | .alt a b, cs, pos => reMatches a cs pos ++ reMatches b cs pos
  | .seq a b, cs, pos => (reMatches a cs pos).flatMap (reMatches b cs)

/-- The match length the JS engine reports for a match attempt at
`pos`, if any. -/
def reMatchLenAt (r : RE) (cs : List Char) (pos : Nat) : Option Nat :=
  (reMatches r cs pos).head?.map (· - pos)

/-- JS `text.match(re)` with the `g` flag: scan left to right, take
each leftmost match and resume at its end (`lastIndex`). Returns
`(start, length)` spans. Structural recursion on a fuel argument; the
wrapper passes `cs.length`, which suffices because the position
strictly increases at every step and scanning stops at the end of the
string. -/
def scanAux (r : RE) (cs : List Char) : Nat → Nat → List (Nat × Nat)
  | 0, _ => []
  | fuel + 1, pos =>
    if pos < cs.length then
      match reMatchLenAt r cs pos with
      | some len => (pos, len) :: scanAux r cs fuel (pos + max 1 len)
      | none => scanAux r cs fuel (pos + 1)
    else []

def reSpans (r : RE) (text : String) : List (Nat × Nat) :=
  scanAux r text.data text.data.length 0

/-- JS `text.match(re) || []` for a global regex: the matched
substrings, in order of appearance. -/
def reExtract (r : RE) (text : String) : List String :=
  (reSpans r text).map (fun pr => String.mk ((text.data.drop pr.1).take pr.2))

/-- Right-nested concatenation of a list of regex parts. -/
def reSeq : RE → List RE → RE
  | r, [] => r
  | r, s :: rest => .seq r (reSeq s rest)

/-- Ordered alternation over a list of branches. -/
def reAlt : RE → List RE → RE
  | r, [] => r
  | r, s :: rest => .alt r (reAlt s rest)

/-! ### The four field-extractor regexes (§ enhanced-vision.ts 789-815) -/

/-- `[A-Za-z\s]` (with the `i` flag this class is unchanged). -/
def isAlphaSpace (c : Char) : Bool := isLetterAZ c || isJsWs c

/-- `(?:Street|St|Avenue|Ave|Road|Rd|Boulevard|Blvd|Lane|Ln|Drive|Dr|Way|Court|Ct)`,
case-insensitive. -/
def streetSuffixRE : RE :=
  reAlt (.litCI "Street".data)
    [.litCI "St".data, .litCI "Avenue".data, .litCI "Ave".data,
     .litCI "Road".data, .litCI "Rd".data, .litCI "Boulevard".data,
     .litCI "Blvd".data, .litCI "Lane".data, .litCI "Ln".data,
     .litCI "Drive".data, .litCI "Dr".data, .litCI "Way".data,
     .litCI "Court".data, .litCI "Ct".data]

/-- `/\d+\s+[A-Za-z\s]+(?:Street|St|...)/gi`. -/
def addressRE : RE :=
  reSeq (.rep isDigit09 1 none)
    [.rep isJsWs 1 none, .rep isAlphaSpace 1 none, streetSuffixRE]

/-- `[-.\s]` separator class of the phone regex. -/
def isPhoneSep (c : Char) : Bool := c == '-' || c == '.' || isJsWs c

/-- `/(?:\+?1[-.\s]?)?\(?([0-9]{3})\)?[-.\s]?([0-9]{3})[-.\s]?([0-9]{4})/g`. -/
def phoneRE : RE :=
  reSeq (.opt (reSeq (.opt (.cls (· == '+'))) [.lit ['1'], .opt (.cls isPhoneSep)]))
    [.opt (.cls (· == '(')),
     .rep isDigit09 3 (some 3),
     .opt (.cls (· == ')')),
     .opt (.cls isPhoneSep),
     .rep isDigit09 3 (some 3),
     .opt (.cls isPhoneSep),
     .rep isDigit09 4 (some 4)]

/-- `[a-zA-Z0-9-]` host-label class. -/
def isHostChar (c : Char) : Bool := isAlnum c || c == '-'

/-- `/(?:https?:\/\/)?(?:www\.)?[a-zA-Z0-9][a-zA-Z0-9-]{1,61}[a-zA-Z0-9]\.[a-zA-Z]{2,}/g`. -/
def websiteRE : RE :=
  reSeq (.opt (reSeq (.lit "http".data) [.opt (.cls (· == 's')), .lit "://".data]))
    [.opt (.lit "www.".data),
     .cls isAlnum,
     .rep isHostChar 1 (some 61),
     .cls isAlnum,
     .lit ['.'],
     .rep isLetterAZ 2 none]

/-- `[a-zA-Z0-9._%+-]` local-part class of the email regex. -/
def isEmailLocal (c : Char) : Bool :=
  isAlnum c || c == '.' || c == '_' || c == '%' || c == '+' || c == '-'

/-- `[a-zA-Z0-9.-]` domain class of the email regex. -/
def isEmailDomain (c : Char) : Bool := isAlnum c || c == '.' || c == '-'

/-- `/[a-zA-Z0-9._%+-]+@[a-zA-Z0-9.-]+\.[a-zA-Z]{2,}/g`. -/
def emailRE : RE :=
  reSeq (.rep isEmailLocal 1 none)
    [.lit ['@'], .rep isEmailDomain 1 none, .lit ['.'], .rep isLetterAZ 2 none]

def extractAddresses (text : String) : List String := reExtract addressRE text

def extractPhoneNumbers (text : String) : List String := reExtract phoneRE text

def extractWebsites (text : String) : List String := reExtract websiteRE text

def extractEmails (text : String) : List String := reExtract emailRE text

/-! ### Line preprocessor (`preprocessLines`) -/

def commonWords : List String :=
  ["our", "menu", "hours", "open", "closed", "welcome", "visit", "call",
   "phone", "email"]

/-- A line is kept unless any of the source's nine filter reasons
applies. -/
def keepLine (line : String) : Bool :=
  let lower := jsToLower line
  !(line.length ≤ 1) &&
  !(commonWords.contains lower) &&
  !("www".data.isPrefixOf lower.data) &&
  !("http".data.isPrefixOf lower.data) &&
  !(jsIncludes lower "@") &&
  !(!line.data.isEmpty && line.data.all isDigit09) &&
  !(line == "&") &&
  !(line == "-") &&
  (line.data.any isLetterAZ)

def preprocessLines (lines : List String) : List String :=
  (lines.map jsTrim).filter keepLine

/-! ### Candidate generators -/

/-- The context-indicator keyword groups, in declaration order
(the weights of the source object are never read). -/
def businessIndicators : List (List String) :=
  [["coffee"], ["food", "park"], ["coffee", "shop"], ["restaurant"],
   ["market"], ["center"], ["plaza"], ["cafe"], ["grill"], ["bar"]]

/-- One window of the context generator: emit the joined window once
when some indicator group is fully contained and the window is short
enough (the source `break`s after the first matching group). -/
def contextEmit (lines : List String) (i j : Nat) : List String :=
  let combined := joinSlice lines i j
  let lowerCombined := jsToLower combined
  if businessIndicators.any (fun ind => ind.all (fun w => jsIncludes lowerCombined w))
      && combined.length < 50
  then [combined] else []

def extractWithBusinessContext (lines : List String) : List String :=
  (List.range lines.length).flatMap fun i =>
    (List.range' (i + 1) (min (i + 4) lines.length - i)).flatMap fun j =>
      contextEmit lines i j

/-- One index of the positional generator: the single line when its
length is in `[4,15]`, the two-line join when a next line exists and
the join is at most 30 characters, the three-line join when two more
lines exist and the join is at most 40 characters. -/
def posEmitAt (lines : List String) (i : Nat) : List String :=
  let line := lines.getD i ""
  (if 4 ≤ line.length ∧ line.length ≤ 15 then [line] else []) ++
  (if i + 1 < lines.length then
    let combined := line ++ " " ++ lines.getD (i + 1) ""
    if combined.length ≤ 30 then [combined] else []
   else []) ++
  (if i + 2 < lines.length then
    let combined := line ++ " " ++ lines.getD (i + 1) "" ++ " " ++ lines.getD (i + 2) ""
    if combined.length ≤ 40 then [combined] else []
   else [])

def extractWithPositionalWeighting (lines : List String) : List String :=
  (List.range (min lines.length 5)).flatMap (posEmitAt lines)

/-- `^[A-Z][a-z]+ [A-Z][a-z]+$` and friends; a `test` against an
anchored regex succeeds when some backtracking path consumes the whole
string from position 0. -/
def reTest (r : RE) (s : String) : Bool :=
  (reMatches r s.data 0).contains s.data.length

def properWordRE : RE := .seq (.cls isUpperAZ) (.rep isLowerAZ 1 none)

def capsWordRE : RE := .rep isUpperAZ 1 none

def namePatterns : List RE :=
  [reSeq properWordRE [.lit [' '], properWordRE],
   reSeq capsWordRE [.lit [' '], capsWordRE],
   reSeq properWordRE [.lit [' '], properWordRE, .lit [' '], properWordRE],
   reSeq capsWordRE [.lit [' '], capsWordRE, .lit [' '], capsWordRE]]

/-- One window of the pattern generator (the source `break`s after the
first matching shape, emitting the window at most once). -/
def patternEmit (lines : List String) (i j : Nat) : List String :=
  let combined := joinSlice lines i j
  if namePatterns.any (fun re => reTest re combined) && combined.length ≤ 35
  then [combined] else []

def extractWithPatternMatching (lines : List String) : List String :=
  (List.range (lines.length - 1)).flatMap fun i =>
    (List.range' (i + 1) (min (i + 3) lines.length - i)).flatMap fun j =>
      patternEmit lines i j

/-! ### Candidate scorer (`scoreBusinessName`) -/

inductive Strategy where
  | context
  | positional
  | pattern
deriving DecidableEq

structure Candidate where
  name : String
  strategy : Strategy
  score : Int
deriving DecidableEq

/-- `Math.max(0, 10 - position)`. -/
def posScore (position : Int) : Int := max 0 (10 - position)

def businessKeywords : List (String × Int) :=
  [("coffee", 7), ("food park", 8), ("coffee shop", 7), ("restaurant", 6),
   ("market", 5), ("center", 4), ("plaza", 4), ("cafe", 5), ("grill", 5),
   ("bar", 4)]

/-- `/^[A-Z]/.test(name)`. -/
def startsWithCapital (name : String) : Bool :=
  match name.data with
  | c :: _ => isUpperAZ c
  | [] => false

/-- `/^[A-Z\s&\-'\.]+$/.test(name)` (the class contains the apostrophe,
written here via its code point). -/
def allCapsShape (name : String) : Bool :=
  !name.data.isEmpty &&
  name.data.all (fun c =>
    isUpperAZ c || isJsWs c || c == '&' || c == '-' || c == Char.ofNat 39 || c == '.')

def scoreBusinessName (name : String) (position : Int) : Int :=
  let positionScore := posScore position
  let words := jsSplit name ' '
  let lengthScore : Int :=
    if words.length = 2 then 5
    else if words.length = 3 then 4
    else if words.length = 1 ∧ name.length > 4 then 3
    else 0
  let formatScore : Int :=
    (if startsWithCapital name then 2 else 0) +
    (if allCapsShape name then 3 else 0)
  let lowerName := jsToLower name
  let keywordScore : Int :=
    match businessKeywords.find? (fun kw => jsIncludes lowerName kw.1) with
    | some kw => kw.2
    | none => 0
  let completenessScore : Int :=
    if 8 ≤ name.length ∧ name.length ≤ 25 then 3 else 0
  let shortPenalty : Int := if name.length < 4 then 3 else 0
  let longPenalty : Int := if name.length > 40 then 5 else 0
  max 0 (positionScore + lengthScore + formatScore + keywordScore +
         completenessScore - shortPenalty - longPenalty)

/-- `candidate.name.split(' ')[0]`. -/
def firstWord (name : String) : String := (jsSplit name ' ').headD ""

/-- `cleanedLines.indexOf(firstWord)`: the JS `Array.prototype.indexOf`,
which yields `-1` when the element is absent. -/
def firstWordIndex (cleanedLines : List String) (name : String) : Int :=
  match cleanedLines.indexOf? (firstWord name) with
  | some i => (i : Int)
  | none => -1

/-! ### Orchestrator (`extractBusinessNamesWithContext`) -/

def mkCandidate (strategy : Strategy) (name : String) : Candidate :=
  ⟨name, strategy, 0⟩

def rawCandidates (cleanedLines : List String) : List Candidate :=
  (extractWithBusinessContext cleanedLines).map (mkCandidate .context) ++
  (extractWithPositionalWeighting cleanedLines).map (mkCandidate .positional) ++
  (extractWithPatternMatching cleanedLines).map (mkCandidate .pattern)

def scoreCandidates (cleanedLines : List String) (cands : List Candidate) :
    List Candidate :=
  cands.map fun c =>
    { c with score := scoreBusinessName c.name (firstWordIndex cleanedLines c.name) }

/-- `removeSimilarCandidates`: `existing.name` and `candidate.name`
lowercased; drop the newcomer when either contains the other or they
are equal. -/
def isContainedWith (existing candidate : Candidate) : Bool :=
  let existingText := jsToLower existing.name
  let candidateText := jsToLower candidate.name
  jsIncludes existingText candidateText ||
  jsIncludes candidateText existingText ||
  existingText == candidateText

def removeSimilarCandidatesAux (unique : List Candidate) :
    List Candidate → List Candidate
  | [] => unique
  | c :: rest =>
    if unique.any (fun existing => isContainedWith existing c)
    then removeSimilarCandidatesAux unique rest
    else removeSimilarCandidatesAux (unique ++ [c]) rest

def removeSimilarCandidates (candidates : List Candidate) : List Candidate :=
  removeSimilarCandidatesAux [] candidates

/-- Stable descending insertion: the newcomer goes after every element
of score ≥ its own (`sort((a, b) => b.score - a.score)`, stable per
ECMAScript 2019). -/
def insertDesc (c : Candidate) : List Candidate → List Candidate
  | [] => [c]
  | d :: ds => if d.score < c.score then c :: d :: ds else d :: insertDesc c ds

def sortByScoreDesc (l : List Candidate) : List Candidate :=
  l.foldl (fun acc c => insertDesc c acc) []

/-- `text.split('\n').filter(line => line.trim().length > 0)`. -/
def nonEmptyLines (text : String) : List String :=
  (jsSplit text '\n').filter (fun l => (jsTrim l).length > 0)

/-- The deduplicated, scored candidate list of the orchestrator, in
generation order (its pre-sort order). -/
def uniqueScored (text : String) : List Candidate :=
  let cleanedLines := preprocessLines (nonEmptyLines text)
  removeSimilarCandidates (scoreCandidates cleanedLines (rawCandidates cleanedLines))

def extractBusinessNamesWithContext (text : String) : List String :=
  ((sortByScoreDesc (uniqueScored text)).take 3).map Candidate.name

/-! ### Confidence estimator (`calculateSmartConfidence`) -/

inductive ConfidenceLevel where
  | High
  | Medium
  | Low
deriving DecidableEq

structure Confidence where
  businessName : ConfidenceLevel
  address : ConfidenceLevel
  phone : ConfidenceLevel
deriving DecidableEq

def getLevel (score : ℚ) : ConfidenceLevel :=
  if score > 0.7 then .High
  else if score > 0.5 then .Medium
  else .Low

/-- The composite score: a detection is represented by its
`description` string (the only field the function reads, besides the
array length). -/
def smartConfidenceScore (detections : List String) (businessNames : List String) : ℚ :=
  let c1 : ℚ := 0.5
  let c2 := if detections.length > 5 then c1 + 0.1 else c1
  let c3 := if detections.length > 10 then c2 + 0.1 else c2
  let c4 := if businessNames.length > 0 then c3 + 0.2 else c3
  let c5 := if businessNames.length > 1 then c4 + 0.1 else c4
  let c6 := if wordTokenCount (detections.headD "") ≥ 5 then c5 + 0.1 else c5
  min 0.95 c6

def calculateSmartConfidence (detections : List String) (businessNames : List String) :
    Confidence :=
  let finalConfidence := smartConfidenceScore detections businessNames
  { businessName := getLevel finalConfidence
    address := getLevel (finalConfidence * 0.8)
    phone := getLevel (finalConfidence * 0.7) }

/-- The part of `extractTextWithEnhancedVision` the claims are about:
business names from the full-text blob (`detections[0]`), confidence
from the detection list and the names. -/
def pipelineBusinessNames (detections : List String) : List String :=
  extractBusinessNamesWithContext (detections.headD "")

def pipelineConfidence (detections : List String) : Confidence :=
  calculateSmartConfidence detections (pipelineBusinessNames detections)

/-! ### The caller's confirmation gate (`BusinessListingGenerator.tsx`) -/

structure ExtractedTextData where
  businessNames : List String
  confidence : Confidence

def genericNames : List String := ["business", "company", "store", "shop"]

def shouldRequestConfirmation (t : ExtractedTextData) : Bool :=
  if t.confidence.businessName == ConfidenceLevel.Low then true
  else if t.businessNames.isEmpty then true
  else
    let firstBusinessName := jsToLower (t.businessNames.headD "")
    if genericNames.any (fun g => jsIncludes firstBusinessName g)
        && firstBusinessName.length < 10
    then true else false

inductive ProcessOutcome where
  | requestConfirmation
  | continueWith (name : String)
deriving DecidableEq

/-- The branch of `processImage` after a successful text extraction:
enter the confirmation step, or continue with `businessNames[0]`. -/
def processImageBranch (t : ExtractedTextData) : ProcessOutcome :=
  if shouldRequestConfirmation t then .requestConfirmation
  else .continueWith (t.businessNames.headD "")

/-! ### `searchBusiness` (`places.ts`) -/

structure PlacesResult where
  place_id : String
  name : String
  formatted_address : String
  geometry : Option String
  types : List String
  rating : Option ℚ
  user_ratings_total : Option Nat
  business_status : Option String
  international_phone_number : Option String
  website : Option String
deriving DecidableEq

/-- An HTTP response as the code observes it: `ok`, the JSON `status`
field, and the payload. -/
structure SearchResponse where
  ok : Bool
  status : String
  results : List PlacesResult

structure DetailsResponse where
  ok : Bool
  status : String
  result : PlacesResult

/-- The request environment: `none` for a fetch models a rejected
promise (network failure), which the source's `catch` turns into
`null`. -/
structure SearchEnv where
  apiKeyConfigured : Bool
  searchFetch : Option SearchResponse
  detailsFetch : Option DetailsResponse

/-- The fallback record built from the best match when the details
response is not `ok` (the fields listed in the source; the rest are
absent). -/
def fallbackOf (bestMatch : PlacesResult) : PlacesResult :=
  { place_id := bestMatch.place_id
    name := bestMatch.name
    formatted_address := bestMatch.formatted_address
    geometry := bestMatch.geometry
    types := bestMatch.types
    rating := bestMatch.rating
    user_ratings_total := bestMatch.user_ratings_total
    business_status := none
    international_phone_number := none
    website := none }

def searchBusiness (env : SearchEnv) : Option PlacesResult :=
  if !env.apiKeyConfigured then none
  else
    match env.searchFetch with
    | none => none
    | some sr =>
      if !sr.ok then none
      else if sr.status ≠ "OK" then none
      else
        match sr.results with
        | [] => none
        | bestMatch :: _ =>
          match env.detailsFetch with
          | none => none
          | some dr =>
            if !dr.ok then some (fallbackOf bestMatch)
            else if dr.status ≠ "OK" then some bestMatch
            else some dr.result

/-! ## Lemmas -/

/-- `segm` decides the contiguous-segment (infix) relation. -/
theorem segm_iff (small big : List Char) : segm small big = true ↔ small <:+: big := by
  induction big with
  | nil =>
    simp [segm, List.isEmpty_iff, List.infix_nil]
  | cons c rest ih =>
    simp only [segm, Bool.or_eq_true, ih, List.infix_cons_iff,
      List.isPrefixOf_iff_prefix]

theorem jsIncludes_iff (big small : String) :
    jsIncludes big small = true ↔ small.data <:+: big.data := by
  simp [jsIncludes, segm_iff]

theorem jsIncludes_eq_false_iff (big small : String) :
    jsIncludes big small = false ↔ ¬ small.data <:+: big.data := by
  rw [← jsIncludes_iff]
  simp

/-! ### The confirmation gate (claim C8) -/

/-- C8: the caller's gate requests confirmation exactly for: Low
business-name confidence, an empty name list, or a generic first name
under 10 characters; otherwise `processImage` continues with the first
name. -/
theorem confirmation_gate_iff (t : ExtractedTextData) :
    (shouldRequestConfirmation t = true ↔
      t.confidence.businessName = ConfidenceLevel.Low ∨
      t.businessNames = [] ∨
      ((∃ g ∈ genericNames,
          g.data <:+: (jsToLower (t.businessNames.headD "")).data) ∧
        (jsToLower (t.businessNames.headD "")).length < 10)) ∧
    (shouldRequestConfirmation t = false →
      processImageBranch t = .continueWith (t.businessNames.headD "")) := by
  constructor
  · by_cases h1 : t.confidence.businessName = ConfidenceLevel.Low
    · simp [shouldRequestConfirmation, h1]
    · by_cases h2 : t.businessNames = []
      · simp [shouldRequestConfirmation, h1, h2]
      · simp [shouldRequestConfirmation, h1, h2, List.any_eq_true,
          jsIncludes_iff, List.isEmpty_iff]
  · intro h
    unfold processImageBranch
    simp [h]

/-- C8 witness: a record with Medium confidence and a non-generic
first name auto-continues. -/
theorem confirmation_gate_iff_witness :
    processImageBranch
        ⟨["BLUE BOTTLE COFFEE"],
         ⟨ConfidenceLevel.High, ConfidenceLevel.Medium, ConfidenceLevel.Low⟩⟩ =
      .continueWith "BLUE BOTTLE COFFEE" :=
  (confirmation_gate_iff
    ⟨["BLUE BOTTLE COFFEE"],
     ⟨ConfidenceLevel.High, ConfidenceLevel.Medium, ConfidenceLevel.Low⟩⟩).2
    (by decide)

/-! ### Places lookup (claim C9) -/

/-- C9 counterexample: the initial text search succeeds with one
result, the details fetch itself fails at the network level (a
rejected promise, `detailsFetch = none`); the `catch` block then makes
`searchBusiness` return `null` — the request fails although only the
enrichment call failed, and no basic-fields fallback is returned. -/
theorem searchBusiness_details_throw_counterexample :
    searchBusiness
        ⟨true,
         some ⟨true, "OK",
           [⟨"pid1", "Cafe One", "1 Main St", none, [], none, none, none, none, none⟩]⟩,
         none⟩ = none := by
  decide

/-- C9 amended: when the details fetch returns a response (the promise
resolves) but that response is not `ok` or carries a non-`OK` status,
`searchBusiness` falls back to the basic fields of the initial best
match instead of failing; only a rejected details fetch reaches the
`catch`-all and yields `null`. -/
theorem searchBusiness_details_fallback (env : SearchEnv) (sr : SearchResponse)
    (bm : PlacesResult) (rest : List PlacesResult) (dr : DetailsResponse)
    (hk : env.apiKeyConfigured = true) (hs : env.searchFetch = some sr)
    (hok : sr.ok = true) (hst : sr.status = "OK") (hres : sr.results = bm :: rest)
    (hd : env.detailsFetch = some dr) (hfail : dr.ok = false ∨ dr.status ≠ "OK") :
    ∃ r, searchBusiness env = some r ∧ r.place_id = bm.place_id ∧
      r.name = bm.name ∧ r.formatted_address = bm.formatted_address := by
  obtain ⟨k, sf, df⟩ := env
  simp only at hk hs hd
  subst hk hs hd
  obtain ⟨sok, sst, sres⟩ := sr
  simp only at hok hst hres
  subst hok hst hres
  unfold searchBusiness
  simp only [Bool.not_true, Bool.false_eq_true, if_false, ne_eq, not_true_eq_false]
  rcases hfail with hf | hf
  · rw [hf]
    exact ⟨fallbackOf bm, by simp [fallbackOf]⟩
  · rcases hok2 : dr.ok with _ | _
    · exact ⟨fallbackOf bm, by simp [fallbackOf]⟩
    · refine ⟨bm, ?_, rfl, rfl, rfl⟩
      simp [hf]

/-- C9 witness: a concrete run in which the details response resolves
with HTTP 500 (`ok = false`) and the basic best-match fields come
back. -/
theorem searchBusiness_details_fallback_witness :
    ∃ r,
      searchBusiness
          ⟨true,
           some ⟨true, "OK",
             [⟨"pid1", "Cafe One", "1 Main St", none, [], none, none, none, none, none⟩]⟩,
           some ⟨false, "INTERNAL_ERROR",
             ⟨"pid1", "Cafe One Deluxe", "1 Main St", none, [], none, none, none, none, none⟩⟩⟩ =
        some r ∧
      r.place_id = "pid1" ∧ r.name = "Cafe One" ∧ r.formatted_address = "1 Main St" :=
  searchBusiness_details_fallback _ _
    ⟨"pid1", "Cafe One", "1 Main St", none, [], none, none, none, none, none⟩ [] _
    rfl rfl rfl rfl rfl rfl (Or.inl rfl)

/-! ### Confidence estimator (claim C5) -/

theorem getLevel_high_iff (t : ℚ) : getLevel t = ConfidenceLevel.High ↔ t > 0.7 := by
  unfold getLevel
  split_ifs with ha hb <;> simp_all

theorem getLevel_medium_iff (t : ℚ) :
    getLevel t = ConfidenceLevel.Medium ↔ t ≤ 0.7 ∧ t > 0.5 := by
  unfold getLevel
  split_ifs with ha hb <;> simp_all

theorem getLevel_low_iff (t : ℚ) : getLevel t = ConfidenceLevel.Low ↔ t ≤ 0.5 := by
  unfold getLevel
  split_ifs with ha hb <;> simp_all
  linarith

/-- C5: the composite confidence score is the clamped sum of the base
and the five bonuses, always lies in `[0.5, 0.95]`, and the three
reported levels derive from it by the fixed thresholds. -/
theorem smartConfidence_spec (detections businessNames : List String) :
    smartConfidenceScore detections businessNames =
      min 0.95 (0.5 + (if detections.length > 5 then (0.1 : ℚ) else 0) +
        (if detections.length > 10 then (0.1 : ℚ) else 0) +
        (if businessNames.length > 0 then (0.2 : ℚ) else 0) +
        (if businessNames.length > 1 then (0.1 : ℚ) else 0) +
        (if wordTokenCount (detections.headD "") ≥ 5 then (0.1 : ℚ) else 0)) ∧
    (0.5 : ℚ) ≤ smartConfidenceScore detections businessNames ∧
    smartConfidenceScore detections businessNames ≤ 0.95 ∧
    calculateSmartConfidence detections businessNames =
      ⟨getLevel (smartConfidenceScore detections businessNames),
       getLevel (smartConfidenceScore detections businessNames * 0.8),
       getLevel (smartConfidenceScore detections businessNames * 0.7)⟩ ∧
    (∀ t : ℚ, getLevel t = ConfidenceLevel.High ↔ t > 0.7) ∧
    (∀ t : ℚ, getLevel t = ConfidenceLevel.Medium ↔ t ≤ 0.7 ∧ t > 0.5) ∧
    (∀ t : ℚ, getLevel t = ConfidenceLevel.Low ↔ t ≤ 0.5) := by
  refine ⟨?_, ?_, ?_, rfl, ?_, ?_, ?_⟩
  · unfold smartConfidenceScore
    split_ifs <;> norm_num
  · unfold smartConfidenceScore
    split_ifs <;> norm_num
  · unfold smartConfidenceScore
    split_ifs <;> norm_num
  · exact getLevel_high_iff
  · exact getLevel_medium_iff
  · exact getLevel_low_iff

/-! ### Website regex matches inside emails (claim C10) -/

/-- C10: on a text holding one email address and no standalone
website, `extractWebsites` still returns a non-empty list — the
domain fragment of the email — because the website regex matches the
domain portion of the email; removing the email's domain leaves no
website match. -/
theorem websites_from_email_fragment :
    extractEmails "contact john at john@example.com now" = ["john@example.com"] ∧
    extractWebsites "contact john at john@example.com now" = ["example.com"] ∧
    "example.com".data <:+: "john@example.com".data ∧
    extractWebsites "contact john at john now" = [] := by
  refine ⟨by decide, by decide, ?_, by decide⟩
  decide

/-! ### The position argument of the scorer (claim C2) -/

/-- C2 counterexample: for the OCR text `"COFFEE BAR"` the context
generator emits the candidate `"COFFEE BAR"`, whose first word
`"COFFEE"` is not an element of the filtered line list; the position
argument the orchestrator passes is `-1` (JS `indexOf`), not `0`, so
the position component is `max(0, 10 - (-1)) = 11`, not `10`, and the
candidate's total score is 31 where the claimed treatment would give
30. -/
theorem position_not_found_counterexample :
    "COFFEE BAR" ∈
      extractWithBusinessContext (preprocessLines (nonEmptyLines "COFFEE BAR")) ∧
    firstWordIndex (preprocessLines (nonEmptyLines "COFFEE BAR")) "COFFEE BAR" = -1 ∧
    posScore (-1) = 11 ∧ posScore (-1) ≠ 10 ∧
    scoreBusinessName "COFFEE BAR"
      (firstWordIndex (preprocessLines (nonEmptyLines "COFFEE BAR")) "COFFEE BAR") = 31 ∧
    scoreBusinessName "COFFEE BAR" 0 = 30 := by
  decide

/-- C2 amended: the position argument is the JS `indexOf` of the
candidate's first word in the filtered line list — the index when
found, `-1` (not `0`) when not found — and the position component is
`max(0, 10 - position)`, so a not-found first word contributes exactly
`11`. -/
theorem position_arg_spec (lines : List String) (name : String) :
    (∀ i : Nat, lines.indexOf? (firstWord name) = some i →
      firstWordIndex lines name = i) ∧
    (firstWord name ∉ lines →
      firstWordIndex lines name = -1 ∧ posScore (firstWordIndex lines name) = 11) ∧
    (∀ p : Int, posScore p = max 0 (10 - p)) := by
  refine ⟨?_, ?_, fun _ => rfl⟩
  · intro i h
    simp [firstWordIndex, h]
  · intro h
    have hn : lines.indexOf? (firstWord name) = none := by
      rw [List.indexOf?_eq_none_iff]
      intro x hx
      simp only [beq_iff_eq]
      intro hxe
      exact h (hxe ▸ hx)
    rw [firstWordIndex, hn]
    exact ⟨rfl, by decide⟩

/-- C2 witness: the concrete not-found case contributes 11. -/
theorem position_arg_spec_witness :
    firstWordIndex ["COFFEE BAR"] "COFFEE BAR" = -1 ∧
    posScore (firstWordIndex ["COFFEE BAR"] "COFFEE BAR") = 11 :=
  (position_arg_spec ["COFFEE BAR"] "COFFEE BAR").2.1 (by decide)

/-! ### The positional generator (claim C3) -/

theorem mem_ite_nil {α : Type} (P : Prop) [Decidable P] (l : List α) (c : α) :
    c ∈ (if P then l else []) ↔ P ∧ c ∈ l := by
  split <;> simp_all

theorem mem_ite_singleton {α : Type} (P : Prop) [Decidable P] (x c : α) :
    c ∈ (if P then [x] else []) ↔ P ∧ c = x := by
  split <;> simp_all

/-- C3 counterexample: with six filtered lines, the two-line
concatenation started at index 4 uses the sixth line, so the emitted
candidate `"Echoo Fffff"` is not built only from the first
`min(5, lineCount)` lines — it does not appear when the generator
runs on just those first five lines. -/
theorem positional_sixth_line_counterexample :
    "Echoo Fffff" ∈
      extractWithPositionalWeighting
        ["Alpha", "Bravo", "Carlo", "Delta", "Echoo", "Fffff"] ∧
    "Echoo Fffff" ∉
      extractWithPositionalWeighting
        (["Alpha", "Bravo", "Carlo", "Delta", "Echoo", "Fffff"].take 5) ∧
    "Fffff".data <:+:  "Echoo Fffff".data := by
  refine ⟨by decide, by decide, by decide⟩

/-- C3 amended: every candidate of the positional generator starts at
a line index `i < min(lineCount, 5)` — though the two- and three-line
concatenations may reach one or two lines beyond that range — and for
each such `i` it emits the line itself when its length is in
`[4, 15]`, the two-line concatenation when a next line exists and the
combination is at most 30 characters, and the three-line concatenation
when two further lines exist and the combination is at most 40
characters. -/
theorem positional_emissions (lines : List String) (c : String) :
    c ∈ extractWithPositionalWeighting lines ↔
      ∃ i < min lines.length 5,
        (4 ≤ (lines.getD i "").length ∧ (lines.getD i "").length ≤ 15 ∧
          c = lines.getD i "") ∨
        (i + 1 < lines.length ∧
          (lines.getD i "" ++ " " ++ lines.getD (i + 1) "").length ≤ 30 ∧
          c = lines.getD i "" ++ " " ++ lines.getD (i + 1) "") ∨
        (i + 2 < lines.length ∧
          (lines.getD i "" ++ " " ++ lines.getD (i + 1) "" ++ " " ++
            lines.getD (i + 2) "").length ≤ 40 ∧
          c = lines.getD i "" ++ " " ++ lines.getD (i + 1) "" ++ " " ++
            lines.getD (i + 2) "") := by
  simp only [extractWithPositionalWeighting, posEmitAt, List.mem_flatMap,
    List.mem_range, List.mem_append, mem_ite_nil, mem_ite_singleton,
    List.mem_singleton]
  constructor
  · rintro ⟨i, hi, h⟩
    exact ⟨i, hi, by tauto⟩
  · rintro ⟨i, hi, h⟩
    exact ⟨i, hi, by tauto⟩

/-- C3 witness: a two-line concatenation is emitted on a concrete
input. -/
theorem positional_emissions_witness :
    "Alpha Bravo" ∈ extractWithPositionalWeighting ["Alpha", "Bravo"] :=
  (positional_emissions ["Alpha", "Bravo"] "Alpha Bravo").mpr (by decide)

/-! ### Zero filtered lines (claim C6) -/

/-- C6 counterexample: twelve detections whose full-text blob is five
digit-only tokens. Every line is filtered as noise and no business
name is produced, yet the detection-count and token-count bonuses push
the confidence score to `0.8`, so `confidence.businessName` is `High`,
not `Low`. -/
theorem empty_lines_high_confidence_counterexample :
    preprocessLines (nonEmptyLines
      (("123 456 789 012 345" :: List.replicate 11 "x").headD "")) = [] ∧
    pipelineBusinessNames ("123 456 789 012 345" :: List.replicate 11 "x") = [] ∧
    (pipelineConfidence ("123 456 789 012 345" :: List.replicate 11 "x")).businessName =
      ConfidenceLevel.High := by
  refine ⟨by decide, by decide, ?_⟩
  unfold pipelineConfidence calculateSmartConfidence
  rw [show pipelineBusinessNames ("123 456 789 012 345" :: List.replicate 11 "x") = []
      from by decide]
  have hs : smartConfidenceScore ("123 456 789 012 345" :: List.replicate 11 "x") [] =
      4/5 := by
    unfold smartConfidenceScore
    rw [show wordTokenCount
        (("123 456 789 012 345" :: List.replicate 11 "x").headD "") = 5 from by decide]
    norm_num
  rw [hs]
  norm_num [getLevel]

/-- C6 amended: with an empty filtered line list all three generators
return `[]` and `businessNames` is `[]`, but `confidence.businessName`
is `Low` exactly when, in addition, at most 5 detections were returned
and the full-text blob has fewer than 5 whitespace-separated tokens;
otherwise the detection and token bonuses lift the level to `Medium`
or `High`. -/
theorem empty_lines_spec (detections : List String)
    (h : preprocessLines (nonEmptyLines (detections.headD "")) = []) :
    extractWithBusinessContext (preprocessLines (nonEmptyLines (detections.headD ""))) = [] ∧
    extractWithPositionalWeighting
      (preprocessLines (nonEmptyLines (detections.headD ""))) = [] ∧
    extractWithPatternMatching
      (preprocessLines (nonEmptyLines (detections.headD ""))) = [] ∧
    pipelineBusinessNames detections = [] ∧
    ((pipelineConfidence detections).businessName = ConfidenceLevel.Low ↔
      detections.length ≤ 5 ∧ wordTokenCount (detections.headD "") < 5) := by
  have hnames : pipelineBusinessNames detections = [] := by
    unfold pipelineBusinessNames extractBusinessNamesWithContext uniqueScored
    rw [h]
    rfl
  refine ⟨by rw [h]; rfl, by rw [h]; rfl, by rw [h]; rfl, hnames, ?_⟩
  unfold pipelineConfidence calculateSmartConfidence
  rw [hnames]
  unfold smartConfidenceScore
  simp only [List.length_nil, gt_iff_lt, Nat.lt_irrefl, if_false, Nat.not_lt_zero,
    ge_iff_le, List.headD_eq_head?_getD]
  split_ifs with h1 h2 h3 <;> rw [getLevel_low_iff] <;> norm_num <;> omega

/-- C6 witness: a single digit-only detection — no names, Low level. -/
theorem empty_lines_spec_witness :
    pipelineBusinessNames ["1234"] = [] ∧
    ((pipelineConfidence ["1234"]).businessName = ConfidenceLevel.Low ↔
      ["1234"].length ≤ 5 ∧ wordTokenCount (["1234"].headD "") < 5) :=
  ⟨(empty_lines_spec ["1234"] (by decide)).2.2.2.1,
   (empty_lines_spec ["1234"] (by decide)).2.2.2.2⟩

/-! ### Field extractors (claim C7) -/

/-- Every match end reported by the engine is at or after the start
position. -/
theorem reMatches_le (r : RE) : ∀ cs pos e, e ∈ reMatches r cs pos → pos ≤ e := by
  induction r with
  | cls p =>
    intro cs pos e he
    simp only [reMatches] at he
    rcases hg : cs[pos]? with _ | c <;> rw [hg] at he
    · simp at he
    · split at he <;> simp_all
  | lit s =>
    intro cs pos e he
    simp only [reMatches] at he
    split at he <;> simp_all
  | litCI s =>
    intro cs pos e he
    simp only [reMatches] at he
    split at he <;> simp_all
  | rep p lo hi =>
    intro cs pos e he
    simp only [reMatches, List.mem_map] at he
    obtain ⟨k, _, rfl⟩ := he
    omega
  | opt r ih =>
    intro cs pos e he
    simp only [reMatches, List.mem_append, List.mem_singleton] at he
    rcases he with he | rfl
    · exact ih cs pos e he
    · exact Nat.le_refl _
  | alt a b iha ihb =>
    intro cs pos e he
    simp only [reMatches, List.mem_append] at he
    rcases he with he | he
    · exact iha cs pos e he
    · exact ihb cs pos e he
  | seq a b iha ihb =>
    intro cs pos e he
    simp only [reMatches, List.mem_flatMap] at he
    obtain ⟨m, hm, he⟩ := he
    exact le_trans (iha cs pos m hm) (ihb cs m e he)

/-- A regex is progressive when every match consumes at least one
character. -/
def REProg (r : RE) : Prop :=
  ∀ cs pos e, e ∈ reMatches r cs pos → pos < e

theorem reProg_cls (p : Char → Bool) : REProg (.cls p) := by
  intro cs pos e he
  simp only [reMatches] at he
  rcases hg : cs[pos]? with _ | c <;> rw [hg] at he
  · simp at he
  · split at he <;> simp_all

theorem mem_downFrom {k top lo : Nat} (h : k ∈ downFrom top lo) :
    lo ≤ k ∧ k ≤ top := by
  simp only [downFrom, List.mem_reverse, List.mem_range'] at h
  omega

theorem reProg_rep (p : Char → Bool) (lo : Nat) (hi : Option Nat) (hlo : 1 ≤ lo) :
    REProg (.rep p lo hi) := by
  intro cs pos e he
  simp only [reMatches, List.mem_map] at he
  obtain ⟨k, hk, rfl⟩ := he
  have := mem_downFrom hk
  omega

theorem reProg_seq_left {a : RE} (b : RE) (ha : REProg a) : REProg (.seq a b) := by
  intro cs pos e he
  simp only [reMatches, List.mem_flatMap] at he
  obtain ⟨m, hm, he⟩ := he
  exact lt_of_lt_of_le (ha cs pos m hm) (reMatches_le b cs m e he)

theorem reProg_seq_right (a : RE) {b : RE} (hb : REProg b) : REProg (.seq a b) := by
  intro cs pos e he
  simp only [reMatches, List.mem_flatMap] at he
  obtain ⟨m, hm, he⟩ := he
  exact lt_of_le_of_lt (reMatches_le a cs pos m hm) (hb cs m e he)

theorem addressRE_prog : REProg addressRE :=
  reProg_seq_left _ (reProg_rep _ 1 none (le_refl 1))

theorem phoneRE_prog : REProg phoneRE :=
  reProg_seq_right _ (reProg_seq_right _
    (reProg_seq_left _ (reProg_rep _ 3 (some 3) (by norm_num))))

theorem websiteRE_prog : REProg websiteRE :=
  reProg_seq_right _ (reProg_seq_right _ (reProg_seq_left _ (reProg_cls _)))

theorem emailRE_prog : REProg emailRE :=
  reProg_seq_left _ (reProg_rep _ 1 none (le_refl 1))

/-- Every span produced by the scanner starts at or after the scan
position. -/
theorem scanAux_start_le (r : RE) (cs : List Char) :
    ∀ fuel pos q, q ∈ scanAux r cs fuel pos → pos ≤ q.1 := by
  intro fuel
  induction fuel with
  | zero => simp [scanAux]
  | succ n ih =>
    intro pos q hq
    unfold scanAux at hq
    split at hq
    · rcases hm : reMatchLenAt r cs pos with _ | len <;> rw [hm] at hq
      · have := ih (pos + 1) q hq
        omega
      · rcases List.mem_cons.mp hq with hq | hq
        · simp [hq]
        · have := ih (pos + max 1 len) q hq
          omega
    · simp at hq

/-- The spans of a progressive regex are non-overlapping and strictly
ordered by appearance. -/
theorem scanAux_pairwise (r : RE) (hr : REProg r) (cs : List Char) :
    ∀ fuel pos,
      (scanAux r cs fuel pos).Pairwise (fun a b => a.1 + a.2 ≤ b.1) := by
  intro fuel
  induction fuel with
  | zero => simp [scanAux]
  | succ n ih =>
    intro pos
    unfold scanAux
    split
    · rcases hm : reMatchLenAt r cs pos with _ | len
      · exact ih (pos + 1)
      · have hlen : 1 ≤ len := by
          simp only [reMatchLenAt, Option.map_eq_some'] at hm
          obtain ⟨e, he, rfl⟩ := hm
          have hmem : e ∈ reMatches r cs pos := by
            rcases hl : reMatches r cs pos with _ | ⟨x, xs⟩
            · rw [hl] at he
              simp at he
            · rw [hl] at he
              simp only [List.head?_cons, Option.some.injEq] at he
              simp [hl, he]
          have := hr cs pos e hmem
          omega
        refine List.Pairwise.cons ?_ (ih (pos + max 1 len))
        intro q hq
        have := scanAux_start_le r cs n (pos + max 1 len) q hq
        simp only
        omega
    · simp

/-- If no position of the text admits a match, the scanner returns the
empty list. -/
theorem scanAux_eq_nil (r : RE) (cs : List Char)
    (h : ∀ p, p < cs.length → reMatchLenAt r cs p = none) :
    ∀ fuel pos, scanAux r cs fuel pos = [] := by
  intro fuel
  induction fuel with
  | zero => simp [scanAux]
  | succ n ih =>
    intro pos
    unfold scanAux
    split
    · rename_i hp
      rw [h pos hp]
      exact ih (pos + 1)
    · rfl

/-- C7: each field extractor is the total function mapping the scanned
spans to their substrings; the spans are non-overlapping and strictly
ordered by position of appearance; and a text without any match yields
`[]` rather than an error. -/
theorem field_extractors_spec (text : String) :
    (extractAddresses text = (reSpans addressRE text).map
        (fun pr => String.mk ((text.data.drop pr.1).take pr.2)) ∧
      (reSpans addressRE text).Pairwise (fun a b => a.1 + a.2 ≤ b.1) ∧
      ((∀ p, p < text.data.length → reMatchLenAt addressRE text.data p = none) →
        extractAddresses text = [])) ∧
    (extractPhoneNumbers text = (reSpans phoneRE text).map
        (fun pr => String.mk ((text.data.drop pr.1).take pr.2)) ∧
      (reSpans phoneRE text).Pairwise (fun a b => a.1 + a.2 ≤ b.1) ∧
      ((∀ p, p < text.data.length → reMatchLenAt phoneRE text.data p = none) →
        extractPhoneNumbers text = [])) ∧
    (extractWebsites text = (reSpans websiteRE text).map
        (fun pr => String.mk ((text.data.drop pr.1).take pr.2)) ∧
      (reSpans websiteRE text).Pairwise (fun a b => a.1 + a.2 ≤ b.1) ∧
      ((∀ p, p < text.data.length → reMatchLenAt websiteRE text.data p = none) →
        extractWebsites text = [])) ∧
    (extractEmails text = (reSpans emailRE text).map
        (fun pr => String.mk ((text.data.drop pr.1).take pr.2)) ∧
      (reSpans emailRE text).Pairwise (fun a b => a.1 + a.2 ≤ b.1) ∧
      ((∀ p, p < text.data.length → reMatchLenAt emailRE text.data p = none) →
        extractEmails text = [])) := by
  refine ⟨⟨rfl, scanAux_pairwise _ addressRE_prog _ _ _, fun h => ?_⟩,
          ⟨rfl, scanAux_pairwise _ phoneRE_prog _ _ _, fun h => ?_⟩,
          ⟨rfl, scanAux_pairwise _ websiteRE_prog _ _ _, fun h => ?_⟩,
          ⟨rfl, scanAux_pairwise _ emailRE_prog _ _ _, fun h => ?_⟩⟩ <;>
    · show (reSpans _ text).map _ = []
      unfold reSpans
      rw [scanAux_eq_nil _ _ h]
      rfl

/-- C7 witness: `extractEmails "no emails here"` is `[]` — no position
of that text admits an email match. -/
theorem field_extractors_spec_witness : extractEmails "no emails here" = [] :=
  (field_extractors_spec "no emails here").2.2.2.2.2 (by decide)

/-! ### Deduplicator (claim C4) -/

/-- The source's containment test fails exactly when neither lowercased
name is an infix of the other (equality being infix both ways). -/
theorem isContainedWith_eq_false_iff (a b : Candidate) :
    isContainedWith a b = false ↔
      ¬((jsToLower a.name).data <:+: (jsToLower b.name).data) ∧
      ¬((jsToLower b.name).data <:+: (jsToLower a.name).data) := by
  unfold isContainedWith
  simp only [Bool.or_eq_false_iff, jsIncludes_eq_false_iff, beq_eq_false_iff_ne,
    ne_eq]
  constructor
  · rintro ⟨⟨h1, h2⟩, _⟩
    exact ⟨h2, h1⟩
  · rintro ⟨h1, h2⟩
    exact ⟨⟨h2, h1⟩, fun he => h1 (by rw [he])⟩

theorem removeAux_pairwise (cs : List Candidate) :
    ∀ unique : List Candidate,
      unique.Pairwise (fun a b => isContainedWith a b = false) →
      (removeSimilarCandidatesAux unique cs).Pairwise
        (fun a b => isContainedWith a b = false) := by
  induction cs with
  | nil =>
    intro u h
    exact h
  | cons c rest ih =>
    intro u h
    unfold removeSimilarCandidatesAux
    split
    · exact ih u h
    · rename_i hany
      refine ih (u ++ [c]) ?_
      rw [List.pairwise_append]
      refine ⟨h, List.pairwise_singleton _ _, ?_⟩
      intro a ha b hb
      rw [List.mem_singleton] at hb
      subst hb
      exact Bool.eq_false_iff.mpr fun he =>
        hany (List.any_eq_true.mpr ⟨a, ha, he⟩)

theorem removeAux_fix (cs : List Candidate) :
    ∀ unique : List Candidate,
      (unique ++ cs).Pairwise (fun a b => isContainedWith a b = false) →
      removeSimilarCandidatesAux unique cs = unique ++ cs := by
  induction cs with
  | nil =>
    intro u _
    simp [removeSimilarCandidatesAux]
  | cons c rest ih =>
    intro u h
    unfold removeSimilarCandidatesAux
    have hany : u.any (fun existing => isContainedWith existing c) = false := by
      rw [List.any_eq_false]
      intro a ha
      have := (List.pairwise_append.mp h).2.2 a ha c (by simp)
      simp [this]
    rw [hany]
    simp only [Bool.false_eq_true, if_false]
    have := ih (u ++ [c]) (by simpa using h)
    rw [this]
    simp

/-- C4: the deduplicator is idempotent, because its output is pairwise
free of (lowercased) mutual containment, so a second pass accepts
every candidate again. -/
theorem removeSimilarCandidates_idempotent (candidates : List Candidate) :
    removeSimilarCandidates (removeSimilarCandidates candidates) =
      removeSimilarCandidates candidates ∧
    (removeSimilarCandidates candidates).Pairwise (fun a b =>
      ¬((jsToLower a.name).data <:+: (jsToLower b.name).data) ∧
      ¬((jsToLower b.name).data <:+: (jsToLower a.name).data)) := by
  have hp : (removeSimilarCandidates candidates).Pairwise
      (fun a b => isContainedWith a b = false) :=
    removeAux_pairwise candidates [] List.Pairwise.nil
  constructor
  · have := removeAux_fix (removeSimilarCandidates candidates) [] (by simpa using hp)
    simpa [removeSimilarCandidates] using this
  · exact hp.imp fun h => (isContainedWith_eq_false_iff _ _).mp h

/-! ### Stable descending sort (claim C1) -/

theorem mem_insertDesc {x c : Candidate} {l : List Candidate} :
    x ∈ insertDesc c l ↔ x = c ∨ x ∈ l := by
  induction l with
  | nil => simp [insertDesc]
  | cons d ds ih =>
    unfold insertDesc
    split
    · simp only [List.mem_cons]
    · simp only [List.mem_cons, ih]
      tauto

theorem insertDesc_sorted {c : Candidate} {l : List Candidate}
    (h : l.Pairwise (fun a b => b.score ≤ a.score)) :
    (insertDesc c l).Pairwise (fun a b => b.score ≤ a.score) := by
  induction l with
  | nil => simp [insertDesc]
  | cons d ds ih =>
    rw [List.pairwise_cons] at h
    obtain ⟨hd, hds⟩ := h
    unfold insertDesc
    split
    · rename_i hlt
      refine List.Pairwise.cons ?_ (List.Pairwise.cons hd hds)
      intro b hb
      rcases List.mem_cons.mp hb with rfl | hb
      · omega
      · have := hd b hb
        omega
    · rename_i hge
      refine List.Pairwise.cons ?_ (ih hds)
      intro b hb
      rcases mem_insertDesc.mp hb with rfl | hb
      · omega
      · exact hd b hb

theorem insertDesc_perm (c : Candidate) (l : List Candidate) :
    List.Perm (insertDesc c l) (c :: l) := by
  induction l with
  | nil => exact List.Perm.refl _
  | cons d ds ih =>
    unfold insertDesc
    split
    · exact List.Perm.refl _
    · exact (List.Perm.cons d ih).trans (List.Perm.swap c d ds)

theorem sortAux_sorted (l : List Candidate) :
    ∀ acc : List Candidate, acc.Pairwise (fun a b => b.score ≤ a.score) →
      (l.foldl (fun acc c => insertDesc c acc) acc).Pairwise
        (fun a b => b.score ≤ a.score) := by
  induction l with
  | nil =>
    intro acc h
    exact h
  | cons c cs ih =>
    intro acc h
    exact ih _ (insertDesc_sorted h)

theorem sortAux_perm (l : List Candidate) :
    ∀ acc : List Candidate,
      List.Perm (l.foldl (fun acc c => insertDesc c acc) acc) (acc ++ l) := by
  induction l with
  | nil =>
    intro acc
    simp
  | cons c cs ih =>
    intro acc
    refine ((ih (insertDesc c acc)).trans ?_)
    refine (List.Perm.append_right cs (insertDesc_perm c acc)).trans ?_
    exact List.perm_middle.symm

theorem filter_insertDesc (c : Candidate) (s : Int) (l : List Candidate)
    (h : l.Pairwise (fun a b => b.score ≤ a.score)) :
    (insertDesc c l).filter (fun d => d.score == s) =
      l.filter (fun d => d.score == s) ++ if c.score == s then [c] else [] := by
  induction l with
  | nil =>
    by_cases hc : (c.score == s) = true <;> simp [insertDesc, List.filter_cons, hc]
  | cons d ds ih =>
    rw [List.pairwise_cons] at h
    obtain ⟨hd, hds⟩ := h
    unfold insertDesc
    split
    · rename_i hlt
      by_cases hc : (c.score == s) = true
      · have hcs : c.score = s := by simpa using hc
        have hnil : (d :: ds).filter (fun d => d.score == s) = [] := by
          rw [List.filter_eq_nil_iff]
          intro b hb
          have hbs : b.score ≤ d.score := by
            rcases List.mem_cons.mp hb with rfl | hb
            · omega
            · exact hd b hb
          simp only [beq_iff_eq]
          omega
        simp [List.filter_cons, hc, hnil]
      · simp [List.filter_cons, hc]
    · rename_i hge
      by_cases hp : (d.score == s) = true <;>
        simp [List.filter_cons, hp, ih hds]

theorem sortAux_filter (s : Int) (l : List Candidate) :
    ∀ acc : List Candidate, acc.Pairwise (fun a b => b.score ≤ a.score) →
      (l.foldl (fun acc c => insertDesc c acc) acc).filter (fun d => d.score == s) =
        acc.filter (fun d => d.score == s) ++ l.filter (fun d => d.score == s) := by
  induction l with
  | nil =>
    intro acc h
    simp
  | cons c cs ih =>
    intro acc h
    rw [List.foldl_cons, ih _ (insertDesc_sorted h), filter_insertDesc c s acc h,
      List.filter_cons]
    by_cases hc : (c.score == s) = true <;> simp [hc]

/-- C1: the orchestrator's output is the top 3 of the deduplicated
candidates under a stable descending sort by score: it has length at
most 3; the ranked list is sorted by non-increasing score; candidates
of equal score keep their original (pre-sort) relative order; and no
two output names are case-insensitive substrings of one another. -/
theorem businessNames_top3_invariant (text : String) :
    extractBusinessNamesWithContext text =
      ((sortByScoreDesc (uniqueScored text)).take 3).map Candidate.name ∧
    (extractBusinessNamesWithContext text).length ≤ 3 ∧
    (sortByScoreDesc (uniqueScored text)).Pairwise
      (fun a b => b.score ≤ a.score) ∧
    (∀ s : Int, (sortByScoreDesc (uniqueScored text)).filter (fun c => c.score == s) =
      (uniqueScored text).filter (fun c => c.score == s)) ∧
    (extractBusinessNamesWithContext text).Pairwise (fun a b =>
      ¬((jsToLower a).data <:+: (jsToLower b).data) ∧
      ¬((jsToLower b).data <:+: (jsToLower a).data)) := by
  refine ⟨rfl, ?_, ?_, ?_, ?_⟩
  · simp only [extractBusinessNamesWithContext, List.length_map, List.length_take]
    omega
  · exact sortAux_sorted _ [] List.Pairwise.nil
  · intro s
    have := sortAux_filter s (uniqueScored text) [] List.Pairwise.nil
    simpa [sortByScoreDesc] using this
  · have hp : (uniqueScored text).Pairwise
        (fun a b => isContainedWith a b = false) :=
      removeAux_pairwise _ [] List.Pairwise.nil
    have hsym : ∀ {x y : Candidate},
        isContainedWith x y = false → isContainedWith y x = false := by
      intro x y h
      rw [isContainedWith_eq_false_iff] at h ⊢
      exact ⟨h.2, h.1⟩
    have hperm : List.Perm (sortByScoreDesc (uniqueScored text)) (uniqueScored text) := by
      have := sortAux_perm (uniqueScored text) []
      simpa [sortByScoreDesc] using this
    have hp2 : (sortByScoreDesc (uniqueScored text)).Pairwise
        (fun a b => isContainedWith a b = false) :=
      (List.Perm.pairwise_iff (fun h => hsym h) hperm).mpr hp
    have hp3 := List.Pairwise.sublist (List.take_sublist 3 _) hp2
    rw [extractBusinessNamesWithContext, List.pairwise_map]
    exact hp3.imp fun h => (isContainedWith_eq_false_iff _ _).mp h

end ListingSpec
